import Mathlib

/-!
# Mesh viewer (`src/mesh.c`): shallow embedding and verified properties

The program keeps all of its data in one global `struct state`.  The embedding
passes that record explicitly: every C function becomes a Lean function from
the old state (and the inputs the environment supplies: file contents, the
allocator, SDL timestamps, the texture memory) to the new state.

Conventions of the embedding

* `int` values are `Int`; `Uint32` timestamps are `Nat`.  Signed overflow is
  undefined in C and is not modelled: the definitions describe the executions
  in which every `int` expression stays in range.
* `float` values are the rationals that are binary32 numbers.  Every `float`
  operation is the exact rational operation followed by `roundF32`
  (round to nearest, ties to even), as on a platform that evaluates `float`
  expressions in `float` without contraction.  Infinities and NaN are not
  modelled.  The functions of the transform take the rounding as a parameter,
  so that the same definition read with no rounding is the transform over the
  reals.
* `sin` and `cos` come from libm; `render` receives their two results
  (`vsin`, `vcos`) as arguments.
* A `NULL` pointer is `none`; a heap array is a `List`.
-/

namespace Mesh

/-! ## C arithmetic -/

/-- Round a rational to the nearest integer, ties going to the even one. -/
def roundHalfEven (q : ℚ) : Int :=
  if q - ⌊q⌋ < 1 / 2 then ⌊q⌋
  else if 1 / 2 < q - ⌊q⌋ then ⌊q⌋ + 1
  else if ⌊q⌋ % 2 = 0 then ⌊q⌋ else ⌊q⌋ + 1

/-- Spacing of the binary32 numbers in the binade of `q`: `2 ^ (e - 23)` where
`2 ^ e ≤ |q| < 2 ^ (e + 1)`, with `e` not below the subnormal exponent `-126`. -/
def f32ulp (q : ℚ) : ℚ := (2 : ℚ) ^ (max (Int.log 2 |q|) (-126) - 23)

/-- Conversion of an exact value to `float`: the nearest multiple of the
spacing of its binade (24 significant bits), ties to even. -/
def roundF32 (q : ℚ) : ℚ := (roundHalfEven (q / f32ulp q) : ℚ) * f32ulp q

/-- Conversion of a `float` to an integer type, as in `(int) x`: truncation
toward zero.  A value outside the range of the integer type is undefined in C
and is truncated all the same. -/
def truncToInt (q : ℚ) : Int := if 0 ≤ q then ⌊q⌋ else -⌊-q⌋

/-! ## Data model (`struct vertex`, `struct mesh`, `struct state`) -/

/-- The record `struct vertex`: three coordinates. -/
structure vertex (K : Type) where
  x : K
  y : K
  z : K
deriving DecidableEq, Repr

/-- The record `struct mesh`: the vertex array `v` (`none` is `NULL`) and the
declared vertex count `size`. -/
structure mesh where
  v : Option (List (vertex ℚ))
  size : Int
deriving DecidableEq, Repr

/-- The record `struct state`.  The three SDL handles are reduced to whether
they are non-`NULL`. -/
structure state where
  window : Bool
  renderer : Bool
  texture : Bool
  win_height : Int
  win_width : Int
  win_flags : Nat
  cur_mesh : Int
  num_meshes : Int
  meshes : Option (List mesh)
  meshfile : Option String
  angle : ℚ
  time : Nat
  quit : Int
deriving DecidableEq, Repr

/-- The state after `memset( &state, 0, sizeof(struct state) )`. -/
def zero_state : state :=
  { window := false, renderer := false, texture := false,
    win_height := 0, win_width := 0, win_flags := 0,
    cur_mesh := 0, num_meshes := 0, meshes := none, meshfile := none,
    angle := 0, time := 0, quit := 0 }

/-! ## Environment: the input file, the allocator, SDL -/

/-- A numeral of the input text: digits with an optional sign (`int`), or any
other decimal numeral, given by its exact value (`dec`). -/
inductive Numeral where
  | int (n : Int)
  | dec (q : ℚ)
deriving DecidableEq, Repr

/-- A whitespace-separated token of the input text.  The token model covers
conversions that consume a token whole or fail on it; an integer conversion
that stops inside a numeral such as `1.5` is outside it and is treated as a
failure. -/
inductive Token where
  | num (l : Numeral)
  | word
deriving DecidableEq, Repr

/-- What the program gets from outside: `fopen` (the tokens of the file, or
`none` when it cannot be opened), `malloc` (whether call number `k`, asking
for `bytes` bytes, returns a block), the indeterminate `float` found in fresh
heap memory, and the success of the three SDL set-up calls. -/
structure Env where
  fopen : String → Option (List Token)
  malloc_ok : Nat → Nat → Bool
  uninit : ℚ
  sdl_init_ok : Bool
  window_ok : Bool
  texture_ok : Bool

/-- A resource released by `quit`. -/
inductive Release where
  | vertices (i : Nat)
  | meshes
  | texture
  | renderer
  | window
  | sdl
deriving DecidableEq, Repr

/-- How a call ends: it returns, or the process is terminated by `exit` with a
status after the listed releases. -/
inductive Outcome (α : Type) where
  | ret (a : α)
  | exited (status : Int) (released : List Release)
deriving DecidableEq, Repr

/-- The constant `EXIT_SUCCESS`. -/
def EXIT_SUCCESS : Int := 0

/-- The constant `EXIT_FAILURE`. -/
def EXIT_FAILURE : Int := 1

/-! ## `load_meshes` (lines 41-75) -/

/-- Size of `struct mesh` (a pointer and an `int`, LP64). -/
def sizeof_mesh : Nat := 16

/-- Size of `struct vertex` (three `float`). -/
def sizeof_vertex : Nat := 12

/-- The product `sizeof(...) * n` for an `int` n, computed in `size_t`. -/
def size_t_mul (s : Nat) (n : Int) : Nat := (((s : Int) * n) % 2 ^ 64).toNat

/-- One `%d` conversion: the integer read, if any, and the remaining input. -/
def scan_d : List Token → Option Int × List Token
  | Token.num (Numeral.int n) :: rest => (some n, rest)
  | ts => (none, ts)

/-- Value of a numeral. -/
def Numeral.value : Numeral → ℚ
  | Numeral.int n => (n : ℚ)
  | Numeral.dec q => q

/-- One `%f` conversion: the `float` read, if any, and the remaining input. -/
def scan_f : List Token → Option ℚ × List Token
  | Token.num l :: rest => (some (roundF32 l.value), rest)
  | ts => (none, ts)

/-- The call `fscanf( f, "%f %f %f", &v.x, &v.y, &v.z )`: conversions stop at the
first failure and the fields not reached keep their old value. -/
def scan_vertex (old : vertex ℚ) (ts : List Token) : vertex ℚ × List Token :=
  match scan_f ts with
  | (none, ts1) => (old, ts1)
  | (some x, ts1) =>
    match scan_f ts1 with
    | (none, ts2) => ({ old with x := x }, ts2)
    | (some y, ts2) =>
      match scan_f ts2 with
      | (none, ts3) => ({ old with x := x, y := y }, ts3)
      | (some z, ts3) => ({ x := x, y := y, z := z }, ts3)

/-- The inner loop `for ( j = 0; j < size; j++ )` with `rem` iterations left,
about to run iteration `j`. -/
def read_vertices (u : ℚ) : Nat → Nat → List Token → List (vertex ℚ) →
    List (vertex ℚ) × List Token
  | 0, _, ts, vs => (vs, ts)
  | rem + 1, j, ts, vs =>
    read_vertices u rem (j + 1)
      (scan_vertex (vs.getD j { x := u, y := u, z := u }) ts).2
      (vs.set j (scan_vertex (vs.getD j { x := u, y := u, z := u }) ts).1)

/-- The outer loop `for ( i = 0; i < num_meshes; i++ )` with `rem` iterations
left, about to run iteration `i`; the result is the value `load_meshes`
returns and the mesh array.  A failed `%d` leaves the zero that `memset` put
in `size`; `malloc` call number `i + 1` is the one for the vertices of mesh `i`. -/
def read_meshes (env : Env) : Nat → Nat → List Token → List mesh → Int × List mesh
  | 0, _, _, ms => (1, ms)
  | rem + 1, i, ts, ms =>
    let size := (scan_d ts).1.getD (ms.getD i ⟨none, 0⟩).size
    let bytes := size_t_mul sizeof_vertex size
    if env.malloc_ok (i + 1) bytes then
      let r := read_vertices env.uninit size.toNat 0 (scan_d ts).2
        (List.replicate (bytes / sizeof_vertex)
          { x := env.uninit, y := env.uninit, z := env.uninit })
      read_meshes env rem (i + 1) r.2 (ms.set i ⟨some r.1, size⟩)
    else (0, ms.set i ⟨none, size⟩)

/-- The function `load_meshes`: its return value and the state it leaves.
A `NULL` file name is treated like a file that cannot be opened.  A failed
`%d` leaves `num_meshes` as it was. -/
def load_meshes (env : Env) (fname : Option String) (st : state) : Int × state :=
  match fname.bind env.fopen with
  | none => (0, st)
  | some ts =>
    let n := (scan_d ts).1.getD st.num_meshes
    let bytes := size_t_mul sizeof_mesh n
    if env.malloc_ok 0 bytes then
      let r := read_meshes env n.toNat 0 (scan_d ts).2
        (List.replicate (bytes / sizeof_mesh) ⟨none, 0⟩)
      (r.1, { st with num_meshes := n, meshes := some r.2 })
    else (0, { st with num_meshes := n, meshes := none })

/-! ## `quit`, `die`, `usage` (lines 77-119) -/

/-- The releases `quit` performs, in order: each non-`NULL` vertex array, the
mesh array, then the SDL objects. -/
def quit (st : state) : List Release :=
  (match st.meshes with
    | some ms =>
      (List.range st.num_meshes.toNat).filterMap (fun i =>
        match ms.get? i with
        | some m => if m.v.isSome then some (Release.vertices i) else none
        | none => none) ++ [Release.meshes]
    | none => [])
  ++ (if st.texture then [Release.texture] else [])
  ++ (if st.renderer then [Release.renderer] else [])
  ++ (if st.window then [Release.window] else [])
  ++ [Release.sdl]

/-- The function `die`: after the message, `quit()` and `exit(EXIT_FAILURE)`. -/
def die {α : Type} (st : state) : Outcome α := Outcome.exited EXIT_FAILURE (quit st)

/-- The function `usage`: after the help text, `exit(EXIT_SUCCESS)`. -/
def usage {α : Type} : Outcome α := Outcome.exited EXIT_SUCCESS []

/-! ## `parse_args` (lines 121-175) -/

/-- The constant `DEFAULT_WINDOW_WIDTH`. -/
def DEFAULT_WINDOW_WIDTH : Int := 450

/-- The constant `DEFAULT_WINDOW_HEIGHT`. -/
def DEFAULT_WINDOW_HEIGHT : Int := 450

/-- The SDL constant `SDL_WINDOW_FULLSCREEN_DESKTOP` (0x1001). -/
def SDL_WINDOW_FULLSCREEN_DESKTOP : Nat := 4097

/-- The libc predicate `isspace` in the C locale. -/
def isspace (c : Char) : Bool :=
  c = ' ' || (9 ≤ c.toNat && c.toNat ≤ 13)

/-- The digit loop of `atoi`: accumulate leading decimal digits. -/
def atoi_digits : Int → List Char → Int
  | acc, [] => acc
  | acc, c :: cs =>
    if c.isDigit then atoi_digits (acc * 10 + ((c.toNat : Int) - 48)) cs else acc

/-- The libc function `atoi`: skip white space, take an optional sign, read the
leading digits and ignore whatever follows; 0 when there is no digit.  A
numeral outside the range of `int` is undefined in C and is read unbounded. -/
def atoi (s : String) : Int :=
  match s.toList.dropWhile isspace with
  | '-' :: cs => - atoi_digits 0 cs
  | '+' :: cs => atoi_digits 0 cs
  | cs => atoi_digits 0 cs

/-- The loop of `parse_args` over the arguments still to be read.  The test
`argv[i][0] == '-'` is the test on the first character; `-H` and `-W` take the
next argument (`++i`), and `die` when there is none. -/
def parse_loop : List String → state → Outcome state
  | [], st => Outcome.ret st
  | [a], st =>
    if a.toList.head? = some '-' then
      if a = "-h" then usage
      else if a = "-f" then
        Outcome.ret { st with win_flags := st.win_flags ||| SDL_WINDOW_FULLSCREEN_DESKTOP }
      else if a = "-H" then die st
      else if a = "-W" then die st
      else die st
    else Outcome.ret { st with meshfile := some a }
  | a :: v :: rest, st =>
    if a.toList.head? = some '-' then
      if a = "-h" then usage
      else if a = "-f" then
        parse_loop (v :: rest)
          { st with win_flags := st.win_flags ||| SDL_WINDOW_FULLSCREEN_DESKTOP }
      else if a = "-H" then
        if atoi v ≤ 0 then die st
        else parse_loop rest { st with win_height := atoi v }
      else if a = "-W" then
        if atoi v ≤ 0 then die st
        else parse_loop rest { st with win_width := atoi v }
      else die st
    else parse_loop (v :: rest) { st with meshfile := some a }

/-- The function `parse_args` on the argument vector (program name first). -/
def parse_args (argv : List String) : Outcome state :=
  match parse_loop argv.tail
      { zero_state with
        win_width := DEFAULT_WINDOW_WIDTH, win_height := DEFAULT_WINDOW_HEIGHT } with
  | Outcome.ret st => if st.meshfile = none then die st else Outcome.ret st
  | Outcome.exited status released => Outcome.exited status released

/-! ## `init` (lines 177-212) -/

/-- The function `init`: SDL set-up, then `load_meshes`; any failure ends in
`die`, which tears down the state reached so far. -/
def init (env : Env) (st : state) : Outcome state :=
  if env.sdl_init_ok = false then die st
  else if env.window_ok = false then die st
  else if env.texture_ok = false then die { st with window := true, renderer := true }
  else if (load_meshes env st.meshfile
      { st with window := true, renderer := true, texture := true }).1 = 0 then
    die (load_meshes env st.meshfile
      { st with window := true, renderer := true, texture := true }).2
  else Outcome.ret (load_meshes env st.meshfile
      { st with window := true, renderer := true, texture := true }).2

/-! ## `update` (lines 214-223) -/

/-- The constant `FPS`. -/
def FPS : ℚ := roundF32 30

/-- The constant `MSPF`, the `float` quotient `1000.0f / FPS`. -/
def MSPF : ℚ := roundF32 (roundF32 1000 / FPS)

/-- The value of `diff`: `MSPF - now + state.time` evaluated in `float` (both
timestamps are converted to `float`), then converted to `Sint32`. -/
def update_diff (now time : Nat) : Int :=
  truncToInt (roundF32 (roundF32 (MSPF - roundF32 (now : ℚ)) + roundF32 (time : ℚ)))

/-- The argument of `SDL_Delay`: `(diff < 0) ? 0 : diff`. -/
def update_delay (now time : Nat) : Int :=
  if update_diff now time < 0 then 0 else update_diff now time

/-- The function `update`, given the two values `SDL_GetTicks` returns: the
delay handed to `SDL_Delay` and the new state.  The remainder by a zero
`num_meshes` is undefined: `none`.  The increment of the angle is taken as
exactly 1/100 before the conversion back to `float`. -/
def update (now now2 : Nat) (st : state) : Option (Int × state) :=
  if st.num_meshes = 0 then none
  else some (update_delay now st.time,
    { st with
      angle := roundF32 (st.angle + 1 / 100),
      cur_mesh := Int.tmod (st.cur_mesh + 1) st.num_meshes,
      time := now2 })

/-- Successive calls of `update`, one per pair of timestamps; `none` as soon
as one of them is undefined. -/
def updates : List (Nat × Nat) → state → Option state
  | [], st => some st
  | t :: ts, st =>
    match update t.1 t.2 st with
    | none => none
    | some r => updates ts r.2

/-- The function `events`: the quit flag is set when a quit event or the `q` key
was polled. -/
def events (quit_requested : Bool) (st : state) : state :=
  if quit_requested then { st with quit := 1 } else st

/-! ## `render` (lines 244-281) -/

/-- Lines 261-263: rotation about the y axis and the vertical bias.  The
rounding `fl` is applied after every operation. -/
def rotate {K : Type} [Field K] (fl : K → K) (vcos vsin : K) (v : vertex K) : vertex K :=
  { x := fl (fl (vcos * v.x) - fl (vsin * v.z)),
    y := fl (v.y - 30),
    z := fl (fl (vcos * v.z) + fl (vsin * v.x)) }

/-- Lines 265-269: scaling and translation to the middle of the window. -/
def to_screen {K : Type} [Field K] (fl : K → K) (w h : Int) (vp : vertex K) : vertex K :=
  { x := fl (fl (vp.x * (3 / 2)) + fl ((Int.tdiv w 2 : Int) : K)),
    y := fl (fl (vp.y * (-(3 / 2))) + fl ((Int.tdiv h 2 + 50 : Int) : K)),
    z := vp.z }

/-- Lines 261-269: the projected point of a vertex. -/
def project {K : Type} [Field K] (fl : K → K) (vcos vsin : K) (w h : Int)
    (v : vertex K) : vertex K :=
  to_screen fl w h (rotate fl vcos vsin v)

/-- The foreground value written by `render`. -/
def FOREGROUND : Nat := 0xFFFFFF

/-- Lines 271-272: the index of `pixels` written for a projected point, if the
guard `vp.x >= 0 && vp.y >= 0` lets it through. -/
def plot_index (w : Int) (vp : vertex ℚ) : Option Int :=
  if 0 ≤ vp.x ∧ 0 ≤ vp.y then some (truncToInt vp.x + truncToInt vp.y * w) else none

/-- Lines 271-273 on the memory around the texture buffer: cell `i` of the
map is `pixels[i]`, the buffer itself being the cells `0 ≤ i < w * h`. -/
def plot (w : Int) (pixels : Int → Nat) (vp : vertex ℚ) : Int → Nat :=
  match plot_index w vp with
  | some i => Function.update pixels i FOREGROUND
  | none => pixels

/-- Line 254: `memset` of the `w * h` cells of the buffer to zero. -/
def clear (w h : Int) (pixels : Int → Nat) : Int → Nat :=
  fun i => if 0 ≤ i ∧ i < w * h then 0 else pixels i

/-- The loop of `render` with `rem` iterations left, about to read `v[i]`;
`none` when `v[i]` lies outside the vertex array. -/
def render_loop (vcos vsin : ℚ) (w h : Int) (vs : List (vertex ℚ)) :
    Nat → Nat → (Int → Nat) → Option (Int → Nat)
  | 0, _, pixels => some pixels
  | rem + 1, i, pixels =>
    match vs.get? i with
    | none => none
    | some v => render_loop vcos vsin w h vs rem (i + 1)
        (plot w pixels (project roundF32 vcos vsin w h v))

/-- The function `render` on the memory of the locked texture: `none` when
`meshes[cur_mesh]` or one of its vertices does not exist. -/
def render (vcos vsin : ℚ) (st : state) (pixels : Int → Nat) : Option (Int → Nat) :=
  match st.meshes with
  | none => none
  | some ms =>
    if st.cur_mesh < 0 then none
    else
      match ms.get? st.cur_mesh.toNat with
      | none => none
      | some m =>
        match m.v with
        | none => if m.size ≤ 0 then some (clear st.win_width st.win_height pixels) else none
        | some vs =>
          render_loop vcos vsin st.win_width st.win_height vs m.size.toNat 0
            (clear st.win_width st.win_height pixels)

/-! ## `loop` (lines 283-291) -/

/-- What the environment supplies to one iteration of `loop`. -/
structure Frame where
  now : Nat
  now2 : Nat
  quit_requested : Bool
  vcos : ℚ
  vsin : ℚ

/-- The function `loop` run over the frames supplied: it stops when the quit
flag is set (or the frames are used up); `none` when an iteration is undefined. -/
def loop : List Frame → state → (Int → Nat) → Option (state × (Int → Nat))
  | [], st, pixels => some (st, pixels)
  | f :: fs, st, pixels =>
    if st.quit ≠ 0 then some (st, pixels)
    else
      match update f.now f.now2 st with
      | none => none
      | some r =>
        match render f.vcos f.vsin (events f.quit_requested r.2) pixels with
        | none => none
        | some pixels2 => loop fs (events f.quit_requested r.2) pixels2

/-- An environment for illustration: no file can be opened. -/
def env_no_file : Env :=
  { fopen := fun _ => none, malloc_ok := fun _ _ => true, uninit := 0,
    sdl_init_ok := true, window_ok := true, texture_ok := true }

/-- An environment for illustration: every file holds the single token 0 (a
mesh count of zero), `malloc` always returns a block and SDL starts up. -/
def env_zero_meshes : Env :=
  { fopen := fun _ => some [Token.num (Numeral.int 0)], malloc_ok := fun _ _ => true,
    uninit := 0, sdl_init_ok := true, window_ok := true, texture_ok := true }

/-- A state for illustration: a 450 by 450 window and one mesh whose two
vertices both sit at the origin. -/
def example_state : state :=
  { zero_state with
    win_width := 450, win_height := 450, num_meshes := 1,
    meshes := some [⟨some [⟨0, 0, 0⟩, ⟨0, 0, 0⟩], 2⟩] }

/-! ## Facts about the arithmetic -/

/-- No integer is closer to `y` than `roundHalfEven y`. -/
theorem roundHalfEven_nearest (y : ℚ) (m : ℤ) :
    |((roundHalfEven y : ℤ) : ℚ) - y| ≤ |(m : ℚ) - y| := by
  have h1 : ((⌊y⌋ : ℤ) : ℚ) ≤ y := Int.floor_le y
  have h2 : y < ((⌊y⌋ : ℤ) : ℚ) + 1 := Int.lt_floor_add_one y
  have hm : m ≤ ⌊y⌋ ∨ ⌊y⌋ + 1 ≤ m := by omega
  have hm2 : (m : ℚ) ≤ ((⌊y⌋ : ℤ) : ℚ) ∨ ((⌊y⌋ : ℤ) : ℚ) + 1 ≤ (m : ℚ) := by
    rcases hm with h | h
    · left; exact_mod_cast h
    · right; exact_mod_cast h
  unfold roundHalfEven
  split_ifs with c1 c2 c3
  · rw [abs_le]
    rcases hm2 with h | h
    · rw [abs_of_nonpos (by linarith)]; constructor <;> linarith
    · rw [abs_of_nonneg (by linarith)]; constructor <;> linarith
  · push_cast
    rw [abs_le]
    rcases hm2 with h | h
    · rw [abs_of_nonpos (by linarith)]; constructor <;> linarith
    · rw [abs_of_nonneg (by linarith)]; constructor <;> linarith
  · rw [abs_le]
    rcases hm2 with h | h
    · rw [abs_of_nonpos (by linarith)]; constructor <;> linarith
    · rw [abs_of_nonneg (by linarith)]; constructor <;> linarith
  · push_cast
    rw [abs_le]
    rcases hm2 with h | h
    · rw [abs_of_nonpos (by linarith)]; constructor <;> linarith
    · rw [abs_of_nonneg (by linarith)]; constructor <;> linarith

theorem roundHalfEven_eq_of_near (y : ℚ) (m : ℤ) (h : |y - (m : ℚ)| < 1 / 2) :
    roundHalfEven y = m := by
  have h1 := roundHalfEven_nearest y m
  rw [abs_sub_comm (m : ℚ) y] at h1
  have h2 : |((roundHalfEven y : ℤ) : ℚ) - (m : ℚ)| < 1 := by
    have h3 : ((roundHalfEven y : ℤ) : ℚ) - (m : ℚ)
        = (((roundHalfEven y : ℤ) : ℚ) - y) + (y - (m : ℚ)) := by ring
    rw [h3]
    calc |(((roundHalfEven y : ℤ) : ℚ) - y) + (y - (m : ℚ))|
        ≤ |((roundHalfEven y : ℤ) : ℚ) - y| + |y - (m : ℚ)| := abs_add _ _
      _ < 1 := by linarith
  have h4 : |roundHalfEven y - m| < 1 := by exact_mod_cast h2
  have h5 := abs_lt.mp h4
  omega

theorem f32ulp_pos (q : ℚ) : 0 < f32ulp q := by
  unfold f32ulp
  positivity

theorem roundF32_zero : roundF32 0 = 0 := by
  unfold roundF32
  simp [roundHalfEven]

theorem f32ulp_eq_of_log (x : ℚ) (e : ℤ) (he : -126 ≤ e) (h : Int.log 2 |x| = e) :
    f32ulp x = (2 : ℚ) ^ (e - 23) := by
  unfold f32ulp
  rw [h, max_eq_left he]

theorem log_eq_of_bounds (x : ℚ) (e : ℤ) (h1 : (2 : ℚ) ^ e ≤ |x|) (h2 : |x| < (2 : ℚ) ^ (e + 1)) :
    Int.log 2 |x| = e := by
  have hpos : 0 < |x| := lt_of_lt_of_le (by positivity) h1
  have a1 : e ≤ Int.log 2 |x| := by
    apply (Int.zpow_le_iff_le_log (b := 2) (by norm_num) hpos).1
    simpa using h1
  have a2 : Int.log 2 |x| < e + 1 := by
    apply (Int.lt_zpow_iff_log_lt (b := 2) (by norm_num) hpos).1
    simpa using h2
  omega

/-- Evaluation of `roundF32` from the binade of `x` and the nearest integer
multiple of the spacing. -/
theorem roundF32_eval (x : ℚ) (e m : ℤ) (he : -126 ≤ e) (h1 : (2 : ℚ) ^ e ≤ |x|)
    (h2 : |x| < (2 : ℚ) ^ (e + 1)) (hm : |x / (2 : ℚ) ^ (e - 23) - (m : ℚ)| < 1 / 2) :
    roundF32 x = (m : ℚ) * (2 : ℚ) ^ (e - 23) := by
  unfold roundF32
  rw [f32ulp_eq_of_log x e he (log_eq_of_bounds x e h1 h2), roundHalfEven_eq_of_near _ m hm]

theorem f32ulp_grid (x : ℚ) (j : ℕ) (hj : j ≤ 149) (hx0 : x ≠ 0)
    (hx : |x| * 2 ^ j < 2 ^ 24) : ∃ t : ℕ, f32ulp x * 2 ^ (j + t) = 1 := by
  have hpos : 0 < |x| := abs_pos.mpr hx0
  have hlt : |x| < ((2 : ℕ) : ℚ) ^ ((24 : ℤ) - (j : ℤ)) := by
    have e1 : ((2 : ℕ) : ℚ) ^ (24 : ℤ) = 2 ^ 24 := by norm_num
    have e2 : ((2 : ℕ) : ℚ) ^ (j : ℤ) = 2 ^ j := by simp
    rw [zpow_sub₀ (by norm_num), e1, e2, lt_div_iff₀ (by positivity)]
    exact hx
  have hlog : Int.log 2 |x| < 24 - (j : ℤ) :=
    (Int.lt_zpow_iff_log_lt (b := 2) (by norm_num) hpos).1 hlt
  have hE : max (Int.log 2 |x|) (-126) ≤ 23 - (j : ℤ) := by
    apply max_le <;> omega
  obtain ⟨t, ht⟩ : ∃ t : ℕ, (t : ℤ) = 23 - (j : ℤ) - max (Int.log 2 |x|) (-126) :=
    ⟨(23 - (j : ℤ) - max (Int.log 2 |x|) (-126)).toNat, by omega⟩
  refine ⟨t, ?_⟩
  unfold f32ulp
  have e1 : max (Int.log 2 |x|) (-126) - 23 = -(((j + t : ℕ) : ℤ)) := by
    push_cast; omega
  rw [e1, zpow_neg, zpow_natCast]
  exact inv_mul_cancel₀ (by positivity)

theorem roundF32_near_grid (x : ℚ) (j t : ℕ) (k : ℤ) (h : f32ulp x * 2 ^ (j + t) = 1) :
    |roundF32 x - x| ≤ |(k : ℚ) / 2 ^ j - x| := by
  have hu := f32ulp_pos x
  have hne : f32ulp x ≠ 0 := ne_of_gt hu
  have e1 : roundF32 x - x
      = (((roundHalfEven (x / f32ulp x) : ℤ) : ℚ) - x / f32ulp x) * f32ulp x := by
    unfold roundF32
    field_simp
  have e2 : (k : ℚ) / 2 ^ j - x
      = (((k * 2 ^ t : ℤ) : ℚ) - x / f32ulp x) * f32ulp x := by
    have h3 : (2 : ℚ) ^ (j + t) = 2 ^ j * 2 ^ t := pow_add 2 j t
    have h4 : f32ulp x * (2 ^ j * 2 ^ t) = 1 := by rw [← h3]; exact h
    have h5 : (k : ℚ) / 2 ^ j = (k : ℚ) * 2 ^ t * f32ulp x := by
      rw [div_eq_iff (by positivity)]
      calc (k : ℚ) = (k : ℚ) * (f32ulp x * (2 ^ j * 2 ^ t)) := by rw [h4, mul_one]
        _ = (k : ℚ) * 2 ^ t * f32ulp x * 2 ^ j := by ring
    rw [h5]
    push_cast
    field_simp
  rw [e1, e2, abs_mul, abs_mul]
  exact mul_le_mul_of_nonneg_right (roundHalfEven_nearest _ _) (abs_nonneg _)

/-- A value below `2 ^ (24 - j)` in magnitude is rounded without crossing a
multiple of `2 ^ (-j)`: all of them are `float` values there. -/
theorem roundF32_between (x : ℚ) (j : ℕ) (k1 k2 : ℤ) (hj : j ≤ 149)
    (hx : |x| * 2 ^ j < 2 ^ 24) (h1 : (k1 : ℚ) / 2 ^ j ≤ x) (h2 : x ≤ (k2 : ℚ) / 2 ^ j) :
    (k1 : ℚ) / 2 ^ j ≤ roundF32 x ∧ roundF32 x ≤ (k2 : ℚ) / 2 ^ j := by
  by_cases hx0 : x = 0
  · subst hx0
    rw [roundF32_zero]
    exact ⟨h1, h2⟩
  · obtain ⟨t, ht⟩ := f32ulp_grid x j hj hx0 hx
    have a1 := roundF32_near_grid x j t k1 ht
    have a2 := roundF32_near_grid x j t k2 ht
    rw [abs_of_nonpos (show (k1 : ℚ) / 2 ^ j - x ≤ 0 by linarith)] at a1
    rw [abs_of_nonneg (show 0 ≤ (k2 : ℚ) / 2 ^ j - x by linarith)] at a2
    have b1 := (abs_le.mp a1).1
    have b2 := (abs_le.mp a2).2
    constructor <;> linarith

theorem roundF32_exact (x : ℚ) (j : ℕ) (k : ℤ) (hj : j ≤ 149)
    (hx : |x| * 2 ^ j < 2 ^ 24) (h : x = (k : ℚ) / 2 ^ j) : roundF32 x = x := by
  have b := roundF32_between x j k k hj hx (le_of_eq h.symm) (le_of_eq h)
  rw [← h] at b
  exact le_antisymm b.2 b.1

theorem roundF32_intCast (n : ℤ) (h : |n| < 2 ^ 24) : roundF32 (n : ℚ) = (n : ℚ) := by
  apply roundF32_exact (n : ℚ) 0 n (by norm_num)
  · have : |(n : ℚ)| < 2 ^ 24 := by exact_mod_cast h
    simpa using this
  · simp

theorem roundF32_natCast (n : ℕ) (h : n < 2 ^ 24) : roundF32 (n : ℚ) = (n : ℚ) := by
  have := roundF32_intCast (n : ℤ) (by rw [abs_of_nonneg (by positivity)]; exact_mod_cast h)
  simpa using this

/-- From `2 ^ 23` on, every `float` is an integer. -/
theorem roundF32_isInt (x : ℚ) (h : (2 : ℚ) ^ 23 ≤ |x|) : ∃ m : ℤ, roundF32 x = (m : ℚ) := by
  have hpos : 0 < |x| := lt_of_lt_of_le (by positivity) h
  have hlog : (23 : ℤ) ≤ Int.log 2 |x| := by
    apply (Int.zpow_le_iff_le_log (b := 2) (by norm_num) hpos).1
    have e1 : ((2 : ℕ) : ℚ) ^ (23 : ℤ) = 2 ^ 23 := by norm_num
    rw [e1]
    exact h
  obtain ⟨n, hn⟩ : ∃ n : ℕ, (n : ℤ) = max (Int.log 2 |x|) (-126) - 23 :=
    ⟨(max (Int.log 2 |x|) (-126) - 23).toNat, by
      have : (23 : ℤ) ≤ max (Int.log 2 |x|) (-126) := le_max_of_le_left hlog
      omega⟩
  refine ⟨roundHalfEven (x / f32ulp x) * 2 ^ n, ?_⟩
  unfold roundF32
  have : f32ulp x = (2 : ℚ) ^ n := by
    unfold f32ulp
    rw [← hn, zpow_natCast]
  rw [this]
  push_cast
  ring

theorem roundF32_near (x : ℚ) (j : ℕ) (k : ℤ) (hj : j ≤ 149) (hx : |x| * 2 ^ j < 2 ^ 24) :
    |roundF32 x - x| ≤ |(k : ℚ) / 2 ^ j - x| := by
  by_cases hx0 : x = 0
  · subst hx0
    rw [roundF32_zero]
    simp
  · obtain ⟨t, ht⟩ := f32ulp_grid x j hj hx0 hx
    exact roundF32_near_grid x j t k ht

theorem truncToInt_intCast (n : ℤ) : truncToInt (n : ℚ) = n := by
  unfold truncToInt
  split_ifs with h
  · exact Int.floor_intCast n
  · have : -(n : ℚ) = ((-n : ℤ) : ℚ) := by push_cast; ring
    rw [this, Int.floor_intCast]
    ring

theorem truncToInt_nonneg (q : ℚ) (n : ℤ) (h0 : 0 ≤ n) (h1 : (n : ℚ) ≤ q) (h2 : q < (n : ℚ) + 1) :
    truncToInt q = n := by
  unfold truncToInt
  have hq : 0 ≤ q := le_trans (by exact_mod_cast h0) h1
  rw [if_pos hq]
  exact Int.floor_eq_iff.mpr ⟨h1, h2⟩

theorem truncToInt_nonpos (q : ℚ) (h : q ≤ 0) : truncToInt q ≤ 0 := by
  unfold truncToInt
  split_ifs with h0
  · have : q = 0 := le_antisymm h h0
    subst this
    simp
  · have : 0 ≤ ⌊-q⌋ := Int.floor_nonneg.mpr (by linarith)
    omega

theorem FPS_eq : FPS = 30 := by
  unfold FPS
  have := roundF32_intCast 30 (by norm_num)
  simpa using this

theorem MSPF_eq : MSPF = 8738133 / 262144 := by
  unfold MSPF
  rw [FPS_eq]
  have h1000 : roundF32 1000 = 1000 := by
    have := roundF32_intCast 1000 (by norm_num)
    simpa using this
  rw [h1000]
  have h := roundF32_eval (1000 / 30) 5 8738133 (by norm_num)
    (by rw [abs_of_pos (by norm_num)]; norm_num)
    (by rw [abs_of_pos (by norm_num)]; norm_num)
    (by rw [abs_lt]; constructor <;> norm_num)
  rw [h]
  norm_num

/-! ## C6: the delay of `update` -/

/-- The `float` expression of `update` for timestamps below `2 ^ 24`: the
truncated result is `33 - (now - last)` while that is not negative, and is
not positive otherwise. -/
theorem diff_core (n l : ℤ) (hl : 0 ≤ l) (hln : l ≤ n) (hn : n < 2 ^ 24) :
    (n - l ≤ 33 →
      truncToInt (roundF32 (roundF32 (8738133 / 262144 - (n : ℚ)) + (l : ℚ))) = 33 - (n - l)) ∧
    (34 ≤ n - l →
      truncToInt (roundF32 (roundF32 (8738133 / 262144 - (n : ℚ)) + (l : ℚ))) ≤ 0) := by
  have hlq : (0 : ℚ) ≤ (l : ℚ) := by exact_mod_cast hl
  have hlnq : (l : ℚ) ≤ (n : ℚ) := by exact_mod_cast hln
  have hnq : (n : ℚ) < 16777216 := by exact_mod_cast hn
  by_cases hc : (n : ℚ) - 8738133 / 262144 < 8388608
  · -- the spacing around `MSPF - now` is at most 1/2
    have hx1 : |8738133 / 262144 - (n : ℚ)| * 2 ^ 1 < 2 ^ 24 := by
      have : |8738133 / 262144 - (n : ℚ)| < 8388608 := by
        rw [abs_lt]; constructor <;> linarith
      norm_num
      linarith
    have n2 := roundF32_near (8738133 / 262144 - (n : ℚ)) 1 (2 * (33 - n) + 1) (by norm_num) hx1
    have e2 : (((2 * (33 - n) + 1 : ℤ)) : ℚ) / 2 ^ 1 - (8738133 / 262144 - (n : ℚ))
        = 67 / 2 - 8738133 / 262144 := by push_cast; ring
    rw [e2, abs_of_nonneg (show (0 : ℚ) ≤ 67 / 2 - 8738133 / 262144 by norm_num)] at n2
    have n3 := abs_le.mp n2
    have hnle : (n : ℚ) ≤ 8388608 + 33 := by
      have : n < 8388608 + 34 := by
        by_contra hcon
        have : (8388608 + 34 : ℤ) ≤ n := by omega
        have : ((8388608 + 34 : ℤ) : ℚ) ≤ (n : ℚ) := by exact_mod_cast this
        push_cast at this
        linarith
      have : n ≤ 8388608 + 33 := by omega
      exact_mod_cast this
    have hx2 : |roundF32 (8738133 / 262144 - (n : ℚ)) + (l : ℚ)| * 2 ^ 1 < 2 ^ 24 := by
      have : |roundF32 (8738133 / 262144 - (n : ℚ)) + (l : ℚ)| < 8388608 := by
        rw [abs_lt]; constructor <;> linarith [n3.1, n3.2]
      norm_num
      linarith
    have b := roundF32_between (roundF32 (8738133 / 262144 - (n : ℚ)) + (l : ℚ)) 1
      (2 * (33 - (n - l))) (2 * (33 - (n - l)) + 1) (by norm_num) hx2
      (by push_cast; linarith [n3.1, n3.2]) (by push_cast; linarith [n3.1, n3.2])
    push_cast at b
    constructor
    · intro he
      apply truncToInt_nonneg _ _ (by omega)
      · push_cast; linarith [b.1]
      · push_cast; linarith [b.2]
    · intro he
      apply truncToInt_nonpos
      have : ((34 : ℤ) : ℚ) ≤ ((n - l : ℤ) : ℚ) := by exact_mod_cast he
      push_cast at this
      linarith [b.2]
  · -- the spacing around `MSPF - now` is 1: the difference is an integer
    have hc2 : (8388608 : ℚ) ≤ (n : ℚ) - 8738133 / 262144 := not_lt.mp hc
    have habs : |8738133 / 262144 - (n : ℚ)| = (n : ℚ) - 8738133 / 262144 := by
      rw [abs_of_nonpos (by linarith)]; ring
    obtain ⟨m, hm⟩ := roundF32_isInt (8738133 / 262144 - (n : ℚ)) (by rw [habs]; norm_num; linarith)
    have hx1 : |8738133 / 262144 - (n : ℚ)| * 2 ^ 0 < 2 ^ 24 := by
      rw [habs]; norm_num; linarith
    have n1 := roundF32_near (8738133 / 262144 - (n : ℚ)) 0 (33 - n) (by norm_num) hx1
    have e1 : (((33 - n : ℤ)) : ℚ) / 2 ^ 0 - (8738133 / 262144 - (n : ℚ))
        = -(8738133 / 262144 - 33) := by push_cast; ring
    rw [e1, abs_neg, abs_of_nonneg (show (0 : ℚ) ≤ 8738133 / 262144 - 33 by norm_num), hm] at n1
    have n3 := abs_le.mp n1
    have hm1 : ((33 - n : ℤ) : ℚ) ≤ (m : ℚ) := by push_cast; linarith [n3.1]
    have hm2 : (m : ℚ) < ((34 - n : ℤ) : ℚ) := by push_cast; linarith [n3.2]
    have hm3 : 33 - n ≤ m := by exact_mod_cast hm1
    have hm4 : m < 34 - n := by exact_mod_cast hm2
    have hmeq : m = 33 - n := by omega
    have hsum : roundF32 (8738133 / 262144 - (n : ℚ)) + (l : ℚ) = ((33 - (n - l) : ℤ) : ℚ) := by
      rw [hm, hmeq]; push_cast; ring
    have hr : roundF32 (((33 - (n - l) : ℤ)) : ℚ) = ((33 - (n - l) : ℤ) : ℚ) := by
      apply roundF32_intCast
      rw [abs_lt]; constructor <;> omega
    rw [hsum, hr, truncToInt_intCast]
    constructor
    · intro _; rfl
    · intro he; omega

theorem update_diff_small (last now : ℕ) (h1 : last ≤ now) (h2 : now < 2 ^ 24) :
    ((now : ℤ) - (last : ℤ) ≤ 33 → update_diff now last = 33 - ((now : ℤ) - (last : ℤ))) ∧
    (34 ≤ (now : ℤ) - (last : ℤ) → update_diff now last ≤ 0) := by
  have hN : roundF32 (now : ℚ) = (now : ℚ) := roundF32_natCast now h2
  have hL : roundF32 (last : ℚ) = (last : ℚ) := roundF32_natCast last (by omega)
  have h := diff_core (now : ℤ) (last : ℤ) (by positivity) (by exact_mod_cast h1)
    (by exact_mod_cast h2)
  unfold update_diff
  rw [hN, hL, MSPF_eq]
  simpa using h

theorem update_delay_nonneg (now time : ℕ) : 0 ≤ update_delay now time := by
  unfold update_delay
  split_ifs with h
  · exact le_refl 0
  · exact not_lt.mp h

theorem roundF32_16777256 : roundF32 16777256 = 16777256 := by
  have h := roundF32_eval 16777256 24 8388628 (by norm_num)
    (by rw [abs_of_pos (by norm_num)]; norm_num)
    (by rw [abs_of_pos (by norm_num)]; norm_num)
    (by rw [abs_lt]; constructor <;> norm_num)
  rw [h]
  norm_num

theorem update_diff_16777256 : update_diff 16777256 16777256 = 34 := by
  unfold update_diff
  rw [MSPF_eq]
  have hc : ((16777256 : ℕ) : ℚ) = 16777256 := by norm_num
  rw [hc, roundF32_16777256]
  have h := roundF32_eval (8738133 / 262144 - 16777256) 24 (-8388611) (by norm_num)
    (by rw [abs_of_neg (by norm_num)]; norm_num)
    (by rw [abs_of_neg (by norm_num)]; norm_num)
    (by rw [abs_lt]; constructor <;> norm_num)
  rw [h]
  have h34 : ((-8388611 : ℤ) : ℚ) * 2 ^ ((24 : ℤ) - 23) + 16777256 = ((34 : ℤ) : ℚ) := by
    norm_num
  rw [h34, roundF32_intCast 34 (by norm_num), truncToInt_intCast]

/-- C6 as stated fails: with both timestamps at 16777256 ms (about 4.7 hours
after start) no time has elapsed, the remaining part of the period truncates
to 33 ms, but the float expression `MSPF - now + state.time` evaluates to 34. -/
theorem update_delay_inexact :
    (16777256 : ℕ) ≤ 16777256 ∧
    ((16777256 : ℕ) : ℚ) - ((16777256 : ℕ) : ℚ) < 1000 / 30 ∧
    update_delay 16777256 16777256 = 34 ∧
    truncToInt (1000 / 30 - (((16777256 : ℕ) : ℚ) - ((16777256 : ℕ) : ℚ))) = 33 ∧
    update_delay 16777256 16777256
      ≠ truncToInt (1000 / 30 - (((16777256 : ℕ) : ℚ) - ((16777256 : ℕ) : ℚ))) := by
  have hd : update_delay 16777256 16777256 = 34 := by
    unfold update_delay
    rw [update_diff_16777256]
    decide
  have ht : truncToInt (1000 / 30 - (((16777256 : ℕ) : ℚ) - ((16777256 : ℕ) : ℚ))) = 33 := by
    apply truncToInt_nonneg _ 33 (by norm_num) <;> norm_num
  refine ⟨le_refl _, by norm_num, hd, ht, ?_⟩
  rw [hd, ht]
  decide

/-- C6, amended: the delay handed to the sleep primitive is never negative,
for any timestamps; and for timestamps last ≤ now below 2^24 ms (which float
represents exactly) it is the remaining part of the 1000/30 ms period,
truncated to whole milliseconds, when the elapsed time is less than the
period, and 0 when the elapsed time is at least the period. -/
theorem update_delay_spec (last now : ℕ) (h1 : last ≤ now) (h2 : now < 2 ^ 24) :
    (∀ a b : ℕ, 0 ≤ update_delay a b) ∧
    ((now : ℚ) - (last : ℚ) < 1000 / 30 →
      update_delay now last = truncToInt (1000 / 30 - ((now : ℚ) - (last : ℚ)))) ∧
    ((1000 / 30 : ℚ) ≤ (now : ℚ) - (last : ℚ) → update_delay now last = 0) := by
  have hd := update_diff_small last now h1 h2
  have hle : (last : ℤ) ≤ (now : ℤ) := by exact_mod_cast h1
  have hcast : (now : ℚ) - (last : ℚ) = (((now : ℤ) - (last : ℤ) : ℤ) : ℚ) := by push_cast; ring
  refine ⟨update_delay_nonneg, ?_, ?_⟩
  · intro he
    have he2 : (now : ℤ) - (last : ℤ) ≤ 33 := by
      by_contra hcon
      have : (34 : ℤ) ≤ (now : ℤ) - (last : ℤ) := by omega
      have : ((34 : ℤ) : ℚ) ≤ (((now : ℤ) - (last : ℤ) : ℤ) : ℚ) := by exact_mod_cast this
      rw [← hcast] at this
      norm_num at this
      linarith
    have ht : truncToInt (1000 / 30 - ((now : ℚ) - (last : ℚ)))
        = 33 - ((now : ℤ) - (last : ℤ)) := by
      apply truncToInt_nonneg _ _ (by omega)
      · rw [hcast]; push_cast; norm_num
      · rw [hcast]; push_cast; norm_num; linarith
    unfold update_delay
    rw [hd.1 he2, ht, if_neg (by omega)]
  · intro he
    have he2 : 34 ≤ (now : ℤ) - (last : ℤ) := by
      by_contra hcon
      have : (now : ℤ) - (last : ℤ) ≤ 33 := by omega
      have : (((now : ℤ) - (last : ℤ) : ℤ) : ℚ) ≤ ((33 : ℤ) : ℚ) := by exact_mod_cast this
      rw [← hcast] at this
      norm_num at this
      linarith
    have := hd.2 he2
    unfold update_delay
    split_ifs with h
    · rfl
    · omega

/-- Witness of the amended C6: last = 100 ms, now = 110 ms. -/
theorem update_delay_spec_witness :
    (100 : ℕ) ≤ 110 ∧ (110 : ℕ) < 2 ^ 24 ∧
    ((∀ a b : ℕ, 0 ≤ update_delay a b) ∧
    (((110 : ℕ) : ℚ) - ((100 : ℕ) : ℚ) < 1000 / 30 →
      update_delay 110 100 = truncToInt (1000 / 30 - (((110 : ℕ) : ℚ) - ((100 : ℕ) : ℚ)))) ∧
    ((1000 / 30 : ℚ) ≤ ((110 : ℕ) : ℚ) - ((100 : ℕ) : ℚ) → update_delay 110 100 = 0)) :=
  ⟨by decide, by decide, update_delay_spec 100 110 (by decide) (by decide)⟩

/-! ## C2: the active index cycles -/

theorem update_some (now now2 : Nat) (st : state) (hN : st.num_meshes ≠ 0) :
    update now now2 st = some (update_delay now st.time,
      { st with
        angle := roundF32 (st.angle + 1 / 100),
        cur_mesh := Int.tmod (st.cur_mesh + 1) st.num_meshes,
        time := now2 }) := by
  unfold update
  rw [if_neg hN]

theorem updates_index (ticks : List (Nat × Nat)) :
    ∀ st : state, 0 < st.num_meshes → 0 ≤ st.cur_mesh → st.cur_mesh < st.num_meshes →
      ∃ st2, updates ticks st = some st2 ∧ st2.num_meshes = st.num_meshes ∧
        st2.cur_mesh = (st.cur_mesh + (ticks.length : Int)) % st.num_meshes := by
  induction ticks with
  | nil =>
    intro st hN h0 h1
    refine ⟨st, rfl, rfl, ?_⟩
    simp [Int.emod_eq_of_lt h0 h1]
  | cons t ts ih =>
    intro st hN h0 h1
    have hne : st.num_meshes ≠ 0 := by omega
    have hmod : Int.tmod (st.cur_mesh + 1) st.num_meshes
        = (st.cur_mesh + 1) % st.num_meshes :=
      Int.tmod_eq_emod (by omega) (by omega)
    have hlo : 0 ≤ (st.cur_mesh + 1) % st.num_meshes := Int.emod_nonneg _ hne
    have hhi : (st.cur_mesh + 1) % st.num_meshes < st.num_meshes := Int.emod_lt_of_pos _ hN
    obtain ⟨st2, e1, e2, e3⟩ := ih
      { st with
        angle := roundF32 (st.angle + 1 / 100),
        cur_mesh := Int.tmod (st.cur_mesh + 1) st.num_meshes,
        time := t.2 } hN (by simpa [hmod] using hlo) (by simpa [hmod] using hhi)
    refine ⟨st2, ?_, e2, ?_⟩
    · simp only [updates, update_some t.1 t.2 st hne]
      exact e1
    · rw [e3]
      simp only [hmod, List.length_cons, Nat.cast_add, Nat.cast_one]
      rw [Int.emod_add_emod]
      congr 1
      ring

/-- C2: with a mesh count N > 0 and the active index at 0, any number k of
calls of update succeeds and leaves the index at k mod N, which lies in
[0, N); after exactly N calls the index is 0 again. -/
theorem update_index_cycle (st : state) (ticks : List (Nat × Nat))
    (hN : 0 < st.num_meshes) (h0 : st.cur_mesh = 0) :
    ∃ st2, updates ticks st = some st2 ∧
      st2.cur_mesh = (ticks.length : Int) % st.num_meshes ∧
      0 ≤ st2.cur_mesh ∧ st2.cur_mesh < st.num_meshes ∧
      ((ticks.length : Int) = st.num_meshes → st2.cur_mesh = st.cur_mesh) := by
  obtain ⟨st2, e1, _, e3⟩ := updates_index ticks st hN (by omega) (by omega)
  rw [h0, zero_add] at e3
  refine ⟨st2, e1, e3, ?_, ?_, ?_⟩
  · rw [e3]; exact Int.emod_nonneg _ (by omega)
  · rw [e3]; exact Int.emod_lt_of_pos _ hN
  · intro hlen
    rw [e3, hlen, h0]
    exact Int.emod_self

/-- Witness of C2: with two meshes, five updates from index 0 visit the indices
1, 0, 1, 0, 1. -/
theorem update_index_cycle_witness :
    (0 : Int) < ({ zero_state with num_meshes := 2 } : state).num_meshes ∧
    ({ zero_state with num_meshes := 2 } : state).cur_mesh = 0 ∧
    (∃ st2, updates [(0, 0), (33, 33), (66, 66), (99, 99), (132, 132)]
        { zero_state with num_meshes := 2 } = some st2 ∧
      st2.cur_mesh = (([(0, 0), (33, 33), (66, 66), (99, 99), (132, 132)] :
        List (Nat × Nat)).length : Int) % ({ zero_state with num_meshes := 2 } : state).num_meshes ∧
      0 ≤ st2.cur_mesh ∧
      st2.cur_mesh < ({ zero_state with num_meshes := 2 } : state).num_meshes ∧
      ((([(0, 0), (33, 33), (66, 66), (99, 99), (132, 132)] :
        List (Nat × Nat)).length : Int) = ({ zero_state with num_meshes := 2 } : state).num_meshes →
        st2.cur_mesh = ({ zero_state with num_meshes := 2 } : state).cur_mesh)) ∧
    (List.range 6).map (fun k =>
      (updates (([(0, 0), (33, 33), (66, 66), (99, 99), (132, 132)] :
        List (Nat × Nat)).take k) { zero_state with num_meshes := 2 }).map
          (fun s => s.cur_mesh))
      = [some 0, some 1, some 0, some 1, some 0, some 1] :=
  ⟨by decide, rfl,
    update_index_cycle { zero_state with num_meshes := 2 }
      [(0, 0), (33, 33), (66, 66), (99, 99), (132, 132)] (by decide) rfl,
    by decide⟩

/-! ## C3, C5: the transform of `render` -/

theorem roundF32_int_lit (n : ℤ) (q : ℚ) (hq : q = (n : ℚ)) (h : |n| < 2 ^ 24) :
    roundF32 q = q := by
  rw [hq]
  exact roundF32_intCast n h

/-- C3 as stated fails: the vertex (0,0,0) at angle 0 (cosine 1, sine 0) in a
450 by 450 window is not projected to (225, 275), neither in float arithmetic
nor in exact arithmetic. -/
theorem project_origin_not_275 :
    ¬ ((project roundF32 1 0 450 450 ⟨0, 0, 0⟩).x = 225 ∧
       (project roundF32 1 0 450 450 ⟨0, 0, 0⟩).y = 275) ∧
    ¬ ((project id (Real.cos 0) (Real.sin 0) 450 450 ⟨0, 0, 0⟩).x = 225 ∧
       (project id (Real.cos 0) (Real.sin 0) 450 450 ⟨0, 0, 0⟩).y = 275) := by
  have h30 : roundF32 (-30) = -30 := roundF32_int_lit (-30) _ (by norm_num) (by norm_num)
  have h45 : roundF32 45 = 45 := roundF32_int_lit 45 _ (by norm_num) (by norm_num)
  have h275 : roundF32 275 = 275 := roundF32_int_lit 275 _ (by norm_num) (by norm_num)
  have h320 : roundF32 320 = 320 := roundF32_int_lit 320 _ (by norm_num) (by norm_num)
  have ht : Int.tdiv 450 2 = 225 := by decide
  constructor
  · intro h
    have hy := h.2
    simp only [project, to_screen, rotate, ht] at hy
    norm_num [h30, h45, h275, h320] at hy
  · intro h
    have hy := h.2
    simp only [project, to_screen, rotate, ht, id] at hy
    norm_num at hy

/-- C3, amended: the vertex (0,0,0) at angle 0 (cosine 1, sine 0) in a 450 by
450 window is projected to the screen point (225, 320), in float arithmetic
and in exact arithmetic alike. -/
theorem project_origin :
    ((project roundF32 1 0 450 450 ⟨0, 0, 0⟩).x = 225 ∧
     (project roundF32 1 0 450 450 ⟨0, 0, 0⟩).y = 320) ∧
    ((project id (Real.cos 0) (Real.sin 0) 450 450 ⟨0, 0, 0⟩).x = 225 ∧
     (project id (Real.cos 0) (Real.sin 0) 450 450 ⟨0, 0, 0⟩).y = 320) := by
  have h30 : roundF32 (-30) = -30 := roundF32_int_lit (-30) _ (by norm_num) (by norm_num)
  have h45 : roundF32 45 = 45 := roundF32_int_lit 45 _ (by norm_num) (by norm_num)
  have h225 : roundF32 225 = 225 := roundF32_int_lit 225 _ (by norm_num) (by norm_num)
  have h275 : roundF32 275 = 275 := roundF32_int_lit 275 _ (by norm_num) (by norm_num)
  have h320 : roundF32 320 = 320 := roundF32_int_lit 320 _ (by norm_num) (by norm_num)
  have ht : Int.tdiv 450 2 = 225 := by decide
  refine ⟨⟨?_, ?_⟩, ⟨?_, ?_⟩⟩
  · simp only [project, to_screen, rotate, ht]
    norm_num [roundF32_zero, h225]
  · simp only [project, to_screen, rotate, ht]
    norm_num [h30, h45, h275, h320]
  · simp only [project, to_screen, rotate, ht, id]
    norm_num
  · simp only [project, to_screen, rotate, ht, id]
    norm_num

theorem project_far_vertex :
    project roundF32 1 0 450 450 ⟨0, -1000, 0⟩ = ⟨225, 1820, 0⟩ := by
  have h1000 : roundF32 (-1000) = -1000 :=
    roundF32_int_lit (-1000) _ (by norm_num) (by norm_num)
  have h1030 : roundF32 (-1030) = -1030 :=
    roundF32_int_lit (-1030) _ (by norm_num) (by norm_num)
  have h1545 : roundF32 1545 = 1545 := roundF32_int_lit 1545 _ (by norm_num) (by norm_num)
  have h225 : roundF32 225 = 225 := roundF32_int_lit 225 _ (by norm_num) (by norm_num)
  have h275 : roundF32 275 = 275 := roundF32_int_lit 275 _ (by norm_num) (by norm_num)
  have h1820 : roundF32 1820 = 1820 := roundF32_int_lit 1820 _ (by norm_num) (by norm_num)
  have ht : Int.tdiv 450 2 = 225 := by decide
  simp only [project, to_screen, rotate, ht]
  norm_num [roundF32_zero, h1000, h1030, h1545, h225, h275, h1820]

theorem plot_index_far : plot_index 450 ⟨225, 1820, 0⟩ = some 819225 := by
  have hx : truncToInt (225 : ℚ) = 225 := by
    have := truncToInt_intCast 225
    simpa using this
  have hy : truncToInt (1820 : ℚ) = 1820 := by
    have := truncToInt_intCast 1820
    simpa using this
  unfold plot_index
  simp only [hx, hy]
  norm_num

theorem render_one (vcos vsin : ℚ) (w h : Int) (v : vertex ℚ) (old : Int → Nat) :
    render vcos vsin
        { zero_state with
          win_width := w, win_height := h, num_meshes := 1,
          meshes := some [⟨some [v], 1⟩] } old
      = some (plot w (clear w h old) (project roundF32 vcos vsin w h v)) := by
  simp [render, zero_state, render_loop]

/-- C4 fails on the code: in a 450 by 450 window, rendering the one-vertex mesh
(0, -1000, 0) at angle 0 stores the foreground value at index 819225 of
`pixels`, beyond the 450 * 450 = 202500 cells of the buffer; the guard of
render tests the lower bounds only. -/
theorem render_writes_outside (old : Int → Nat) :
    plot_index 450 (project roundF32 1 0 450 450 ⟨0, -1000, 0⟩) = some 819225 ∧
    ¬ ((819225 : Int) < 450 * 450) ∧
    ∃ px, render 1 0
        { zero_state with
          win_width := 450, win_height := 450, num_meshes := 1,
          meshes := some [⟨some [⟨0, -1000, 0⟩], 1⟩] } old = some px ∧
      px 819225 = FOREGROUND := by
  refine ⟨by rw [project_far_vertex, plot_index_far], by norm_num, ?_⟩
  refine ⟨_, render_one _ _ _ _ _ _, ?_⟩
  rw [project_far_vertex]
  unfold plot
  rw [plot_index_far]
  simp

/-- The loop of `render` over a whole vertex array is a fold of `plot`. -/
theorem render_loop_all (vcos vsin : ℚ) (w h : Int) (suf : List (vertex ℚ)) :
    ∀ (pre : List (vertex ℚ)) (px : Int → Nat),
      render_loop vcos vsin w h (pre ++ suf) suf.length pre.length px
        = some (suf.foldl (fun p v => plot w p (project roundF32 vcos vsin w h v)) px) := by
  induction suf with
  | nil => intro pre px; simp [render_loop]
  | cons v t ih =>
    intro pre px
    have hget : (pre ++ v :: t).get? pre.length = some v := by
      rw [List.get?_eq_getElem?, List.getElem?_append_right (le_refl _)]
      simp
    have happ : pre ++ v :: t = (pre ++ [v]) ++ t := by simp
    have hlen : (pre ++ [v]).length = pre.length + 1 := by simp
    simp only [List.length_cons, render_loop, hget, List.foldl_cons]
    rw [happ, ← hlen]
    exact ih (pre ++ [v]) _

theorem plot_apply (w : Int) (px : Int → Nat) (p : vertex ℚ) (i : Int) :
    plot w px p i = if plot_index w p = some i then FOREGROUND else px i := by
  unfold plot
  cases hp : plot_index w p with
  | none => simp
  | some k =>
    by_cases hk : k = i
    · subst hk; simp
    · have : i ≠ k := fun e => hk e.symm
      simp [hk, Function.update_noteq this]

/-- A cell after plotting a list of points: foreground when one of them is
written there, untouched otherwise. -/
theorem foldl_plot_apply (w : Int) (g : vertex ℚ → vertex ℚ) (vs : List (vertex ℚ)) :
    ∀ (px : Int → Nat) (i : Int),
      (vs.foldl (fun p v => plot w p (g v)) px) i
        = if ∃ v ∈ vs, plot_index w (g v) = some i then FOREGROUND else px i := by
  induction vs with
  | nil => intro px i; simp
  | cons v t ih =>
    intro px i
    rw [List.foldl_cons, ih, plot_apply]
    by_cases h1 : ∃ u ∈ t, plot_index w (g u) = some i
    · have h2 : ∃ u ∈ v :: t, plot_index w (g u) = some i := by
        obtain ⟨u, hu, e⟩ := h1
        exact ⟨u, List.mem_cons_of_mem _ hu, e⟩
      rw [if_pos h1, if_pos h2]
    · rw [if_neg h1]
      by_cases h3 : plot_index w (g v) = some i
      · have h2 : ∃ u ∈ v :: t, plot_index w (g u) = some i :=
          ⟨v, List.mem_cons_self _ _, h3⟩
        rw [if_pos h3, if_pos h2]
      · have h2 : ¬ ∃ u ∈ v :: t, plot_index w (g u) = some i := by
          rintro ⟨u, hu, e⟩
          rcases List.mem_cons.mp hu with rfl | hu2
          · exact h3 e
          · exact h1 ⟨u, hu2, e⟩
        rw [if_neg h3, if_neg h2]

/-- A cell index determines its column and row. -/
theorem index_unique (w x1 y1 x2 y2 : Int) (a1 : 0 ≤ x1) (b1 : x1 < w) (a2 : 0 ≤ x2)
    (b2 : x2 < w) (h : x1 + y1 * w = x2 + y2 * w) : x1 = x2 ∧ y1 = y2 := by
  have e1 : (x1 + y1 * w) % w = x1 := by
    rw [Int.add_mul_emod_self, Int.emod_eq_of_lt a1 b1]
  have e2 : (x2 + y2 * w) % w = x2 := by
    rw [Int.add_mul_emod_self, Int.emod_eq_of_lt a2 b2]
  have hx : x1 = x2 := by rw [← e1, ← e2, h]
  refine ⟨hx, ?_⟩
  subst hx
  have hw : w ≠ 0 := by omega
  have : y1 * w = y2 * w := by linarith
  exact mul_right_cancel₀ hw this

theorem truncToInt_bounds (q : ℚ) (w : Int) (h0 : 0 ≤ q) (h1 : q < (w : ℚ)) :
    0 ≤ truncToInt q ∧ truncToInt q < w := by
  unfold truncToInt
  rw [if_pos h0]
  exact ⟨Int.floor_nonneg.mpr h0, Int.floor_lt.mpr h1⟩

theorem plot_index_inside (w : Int) (p : vertex ℚ) (h0 : 0 ≤ p.x) (h1 : 0 ≤ p.y) :
    plot_index w p = some (truncToInt p.x + truncToInt p.y * w) := by
  unfold plot_index
  rw [if_pos ⟨h0, h1⟩]

theorem render_active (vcos vsin : ℚ) (st : state) (old : Int → Nat) (ms : List mesh)
    (vs : List (vertex ℚ)) (hms : st.meshes = some ms) (hc : 0 ≤ st.cur_mesh)
    (hm : ms.get? st.cur_mesh.toNat = some ⟨some vs, vs.length⟩) :
    render vcos vsin st old
      = some (vs.foldl (fun p v => plot st.win_width p
          (project roundF32 vcos vsin st.win_width st.win_height v))
          (clear st.win_width st.win_height old)) := by
  unfold render
  rw [hms]
  simp only [if_neg (not_lt.mpr hc), hm, Int.toNat_ofNat]
  have := render_loop_all vcos vsin st.win_width st.win_height vs []
    (clear st.win_width st.win_height old)
  simpa using this

theorem render_char (vcos vsin : ℚ) (st : state) (old : Int → Nat) (ms : List mesh)
    (vs : List (vertex ℚ)) (hms : st.meshes = some ms) (hc : 0 ≤ st.cur_mesh)
    (hm : ms.get? st.cur_mesh.toNat = some ⟨some vs, vs.length⟩) :
    ∃ px, render vcos vsin st old = some px ∧
      ∀ i, px i = if ∃ v ∈ vs, plot_index st.win_width
            (project roundF32 vcos vsin st.win_width st.win_height v) = some i
          then FOREGROUND else clear st.win_width st.win_height old i :=
  ⟨_, render_active vcos vsin st old ms vs hms hc hm, fun i =>
    foldl_plot_apply st.win_width
      (fun v => project roundF32 vcos vsin st.win_width st.win_height v) vs _ i⟩

theorem FOREGROUND_ne_zero : FOREGROUND ≠ 0 := by decide

/-- C10: when the active mesh exists and every one of its projected points lies
inside the window, render succeeds and leaves the buffer as follows: the cell
of column x and row y holds the foreground value exactly when some vertex
projects to truncated coordinates (x, y); every cell of the buffer that is not
the cell of a vertex holds 0; and the buffer is the same for any previous
contents and for any vertex list with the same vertices (reordered or
repeated). -/
theorem render_pixels (vcos vsin : ℚ) (st : state) (old : Int → Nat) (ms : List mesh)
    (vs : List (vertex ℚ)) (hms : st.meshes = some ms) (hc : 0 ≤ st.cur_mesh)
    (hm : ms.get? st.cur_mesh.toNat = some ⟨some vs, vs.length⟩)
    (hin : ∀ v ∈ vs,
      0 ≤ (project roundF32 vcos vsin st.win_width st.win_height v).x ∧
      (project roundF32 vcos vsin st.win_width st.win_height v).x < (st.win_width : ℚ) ∧
      0 ≤ (project roundF32 vcos vsin st.win_width st.win_height v).y ∧
      (project roundF32 vcos vsin st.win_width st.win_height v).y < (st.win_height : ℚ)) :
    ∃ px, render vcos vsin st old = some px ∧
      (∀ x y : Int, 0 ≤ x → x < st.win_width → 0 ≤ y → y < st.win_height →
        (px (x + y * st.win_width) = FOREGROUND ↔
          ∃ v ∈ vs,
            truncToInt (project roundF32 vcos vsin st.win_width st.win_height v).x = x ∧
            truncToInt (project roundF32 vcos vsin st.win_width st.win_height v).y = y)) ∧
      (∀ i : Int, 0 ≤ i → i < st.win_width * st.win_height →
        (¬ ∃ v ∈ vs, i =
          truncToInt (project roundF32 vcos vsin st.win_width st.win_height v).x +
          truncToInt (project roundF32 vcos vsin st.win_width st.win_height v).y
            * st.win_width) →
        px i = 0) ∧
      (∀ (old2 : Int → Nat) (vs2 : List (vertex ℚ)), (∀ v, v ∈ vs2 ↔ v ∈ vs) →
        ∃ px2, render vcos vsin
            { st with meshes := some (ms.set st.cur_mesh.toNat ⟨some vs2, vs2.length⟩) } old2
              = some px2 ∧
          ∀ i : Int, 0 ≤ i → i < st.win_width * st.win_height → px2 i = px i) := by
  obtain ⟨px, hr, hpx⟩ := render_char vcos vsin st old ms vs hms hc hm
  have hidx : ∀ v ∈ vs, plot_index st.win_width
      (project roundF32 vcos vsin st.win_width st.win_height v)
      = some (truncToInt (project roundF32 vcos vsin st.win_width st.win_height v).x +
          truncToInt (project roundF32 vcos vsin st.win_width st.win_height v).y
            * st.win_width) :=
    fun v hv => plot_index_inside _ _ (hin v hv).1 (hin v hv).2.2.1
  refine ⟨px, hr, ?_, ?_, ?_⟩
  · intro x y hx0 hx1 hy0 hy1
    rw [hpx]
    constructor
    · intro hfg
      by_cases hex : ∃ v ∈ vs, plot_index st.win_width
          (project roundF32 vcos vsin st.win_width st.win_height v)
            = some (x + y * st.win_width)
      · obtain ⟨v, hv, e⟩ := hex
        rw [hidx v hv] at e
        have e2 := Option.some.inj e
        have bx := truncToInt_bounds _ _ (hin v hv).1 (hin v hv).2.1
        have := index_unique st.win_width _ _ _ _ bx.1 bx.2 hx0 hx1 e2
        exact ⟨v, hv, this.1, this.2⟩
      · rw [if_neg hex] at hfg
        have hlt : x + y * st.win_width < st.win_width * st.win_height := by nlinarith
        have hge : 0 ≤ x + y * st.win_width := by nlinarith
        unfold clear at hfg
        rw [if_pos ⟨hge, hlt⟩] at hfg
        exact absurd hfg.symm FOREGROUND_ne_zero
    · rintro ⟨v, hv, ex, ey⟩
      have : ∃ u ∈ vs, plot_index st.win_width
          (project roundF32 vcos vsin st.win_width st.win_height u)
            = some (x + y * st.win_width) := ⟨v, hv, by rw [hidx v hv, ex, ey]⟩
      rw [if_pos this]
  · intro i hi0 hi1 hno
    rw [hpx]
    have : ¬ ∃ v ∈ vs, plot_index st.win_width
        (project roundF32 vcos vsin st.win_width st.win_height v) = some i := by
      rintro ⟨v, hv, e⟩
      rw [hidx v hv] at e
      exact hno ⟨v, hv, (Option.some.inj e).symm⟩
    rw [if_neg this]
    unfold clear
    rw [if_pos ⟨hi0, hi1⟩]
  · intro old2 vs2 hmem
    have hlen : st.cur_mesh.toNat < ms.length := by
      rw [List.get?_eq_getElem?] at hm
      exact (List.getElem?_eq_some_iff.mp hm).1
    have hm2 : (ms.set st.cur_mesh.toNat ⟨some vs2, vs2.length⟩).get? st.cur_mesh.toNat
        = some ⟨some vs2, vs2.length⟩ := by
      rw [List.get?_eq_getElem?, List.getElem?_set_self hlen]
    obtain ⟨px2, hr2, hpx2⟩ := render_char vcos vsin
      { st with meshes := some (ms.set st.cur_mesh.toNat ⟨some vs2, vs2.length⟩) } old2
      (ms.set st.cur_mesh.toNat ⟨some vs2, vs2.length⟩) vs2 rfl hc hm2
    refine ⟨px2, hr2, ?_⟩
    intro i hi0 hi1
    rw [hpx2, hpx]
    have hiff : (∃ v ∈ vs2, plot_index st.win_width
        (project roundF32 vcos vsin st.win_width st.win_height v) = some i)
        ↔ (∃ v ∈ vs, plot_index st.win_width
        (project roundF32 vcos vsin st.win_width st.win_height v) = some i) := by
      constructor
      · rintro ⟨v, hv, e⟩; exact ⟨v, (hmem v).mp hv, e⟩
      · rintro ⟨v, hv, e⟩; exact ⟨v, (hmem v).mpr hv, e⟩
    simp only [hiff]
    unfold clear
    simp only [if_pos (And.intro hi0 hi1)]

theorem project_origin_val :
    project roundF32 1 0 450 450 ⟨0, 0, 0⟩ = ⟨225, 320, 0⟩ := by
  have h30 : roundF32 (-30) = -30 := roundF32_int_lit (-30) _ (by norm_num) (by norm_num)
  have h45 : roundF32 45 = 45 := roundF32_int_lit 45 _ (by norm_num) (by norm_num)
  have h225 : roundF32 225 = 225 := roundF32_int_lit 225 _ (by norm_num) (by norm_num)
  have h275 : roundF32 275 = 275 := roundF32_int_lit 275 _ (by norm_num) (by norm_num)
  have h320 : roundF32 320 = 320 := roundF32_int_lit 320 _ (by norm_num) (by norm_num)
  have ht : Int.tdiv 450 2 = 225 := by decide
  simp only [project, to_screen, rotate, ht]
  norm_num [roundF32_zero, h30, h45, h225, h275, h320]

theorem example_state_inside : ∀ v ∈ [(⟨0, 0, 0⟩ : vertex ℚ), ⟨0, 0, 0⟩],
    0 ≤ (project roundF32 1 0 example_state.win_width example_state.win_height v).x ∧
    (project roundF32 1 0 example_state.win_width example_state.win_height v).x
      < (example_state.win_width : ℚ) ∧
    0 ≤ (project roundF32 1 0 example_state.win_width example_state.win_height v).y ∧
    (project roundF32 1 0 example_state.win_width example_state.win_height v).y
      < (example_state.win_height : ℚ) := by
  intro v hv
  have hv0 : v = ⟨0, 0, 0⟩ := by
    simp only [List.mem_cons, List.mem_singleton, List.not_mem_nil, or_false, or_self] at hv
    exact hv
  have hw : example_state.win_width = 450 := rfl
  have hh : example_state.win_height = 450 := rfl
  rw [hv0, hw, hh, project_origin_val]
  norm_num

/-- Witness of C10: a 450 by 450 window and a mesh whose two vertices both sit
at the origin; whatever the buffer held, after render the cell of column 225
and row 320 holds the foreground value and cell 0 holds the background. -/
theorem render_pixels_witness :
    example_state.meshes
      = some [⟨some [(⟨0, 0, 0⟩ : vertex ℚ), ⟨0, 0, 0⟩], 2⟩] ∧
    0 ≤ example_state.cur_mesh ∧
    (∀ old : Int → Nat, ∃ px, render 1 0 example_state old = some px ∧
      px (225 + 320 * 450) = FOREGROUND ∧ px 0 = 0) := by
  refine ⟨rfl, by decide, ?_⟩
  intro old
  obtain ⟨px, hr, h1, h2, _⟩ := render_pixels 1 0 example_state old
    [⟨some [(⟨0, 0, 0⟩ : vertex ℚ), ⟨0, 0, 0⟩], 2⟩] [⟨0, 0, 0⟩, ⟨0, 0, 0⟩]
    rfl (by decide) rfl example_state_inside
  have hw : example_state.win_width = 450 := rfl
  have hh : example_state.win_height = 450 := rfl
  have t225 : truncToInt (225 : ℚ) = 225 := by
    have := truncToInt_intCast 225
    simpa using this
  have t320 : truncToInt (320 : ℚ) = 320 := by
    have := truncToInt_intCast 320
    simpa using this
  rw [hw, hh] at h1 h2
  refine ⟨px, hr, ?_, ?_⟩
  · apply (h1 225 320 (by norm_num) (by norm_num) (by norm_num) (by norm_num)).mpr
    refine ⟨⟨0, 0, 0⟩, List.mem_cons_self _ _, ?_, ?_⟩
    · rw [project_origin_val]; exact t225
    · rw [project_origin_val]; exact t320
  · apply h2 0 (le_refl 0) (by norm_num)
    rintro ⟨v, hv, e⟩
    have hv0 : v = ⟨0, 0, 0⟩ := by
      simp only [List.mem_cons, List.mem_singleton, List.not_mem_nil, or_false, or_self] at hv
      exact hv
    rw [hv0, project_origin_val, t225, t320] at e
    norm_num at e

/-! ## C9: `parse_args` -/

/-- What `parse_loop` keeps when it returns. -/
theorem parse_loop_inv (n : ℕ) : ∀ (args : List String) (st st2 : state),
    args.length ≤ n → parse_loop args st = Outcome.ret st2 →
      (0 < st.win_width → 0 < st2.win_width) ∧
      (0 < st.win_height → 0 < st2.win_height) ∧
      ("-W" ∉ args → st2.win_width = st.win_width) ∧
      ("-H" ∉ args → st2.win_height = st.win_height) ∧
      st2.meshes = st.meshes ∧ st2.num_meshes = st.num_meshes ∧
      st2.cur_mesh = st.cur_mesh ∧ st2.quit = st.quit := by
  induction n using Nat.strong_induction_on with
  | _ n ih =>
    intro args st st2 hlen h
    match args, h with
    | [], h =>
      simp only [parse_loop, Outcome.ret.injEq] at h
      subst h
      simp
    | [a], h =>
      simp only [parse_loop] at h
      split_ifs at h with h0 hh hf hH hW
      all_goals first
        | (simp only [Outcome.ret.injEq] at h; subst h; simp)
        | (simp [usage, die] at h)
    | a :: v :: rest, h =>
      simp only [parse_loop] at h
      have hlen2 : rest.length + 2 ≤ n := by simpa using hlen
      split_ifs at h with h0 hh hf hH hv hW hv
      · exact absurd h (by simp [usage])
      · have := ih (n - 1) (by omega) (v :: rest) _ st2 (by simp; omega) h
        refine ⟨this.1, this.2.1, ?_, ?_, this.2.2.2.2⟩
        · intro hn; exact this.2.2.1 (fun hm => hn (List.mem_cons_of_mem _ hm))
        · intro hn; exact this.2.2.2.1 (fun hm => hn (List.mem_cons_of_mem _ hm))
      · exact absurd h (by simp [die])
      · have := ih (n - 2) (by omega) rest _ st2 (by omega) h
        refine ⟨this.1, fun _ => this.2.1 (by simpa using not_le.mp hv), ?_, ?_,
          this.2.2.2.2⟩
        · intro hn
          exact this.2.2.1 (fun hm => hn
            (List.mem_cons_of_mem _ (List.mem_cons_of_mem _ hm)))
        · intro hn
          exact absurd (List.mem_cons_self _ _) (hH ▸ hn)
      · exact absurd h (by simp [die])
      · have := ih (n - 2) (by omega) rest _ st2 (by omega) h
        refine ⟨fun _ => this.1 (by simpa using not_le.mp hv), this.2.1, ?_, ?_,
          this.2.2.2.2⟩
        · intro hn
          exact absurd (List.mem_cons_self _ _) (hW ▸ hn)
        · intro hn
          exact this.2.2.2.1 (fun hm => hn
            (List.mem_cons_of_mem _ (List.mem_cons_of_mem _ hm)))
      · exact absurd h (by simp [die])
      · have := ih (n - 1) (by omega) (v :: rest) _ st2 (by simp; omega) h
        refine ⟨this.1, this.2.1, ?_, ?_, this.2.2.2.2⟩
        · intro hn; exact this.2.2.1 (fun hm => hn (List.mem_cons_of_mem _ hm))
        · intro hn; exact this.2.2.2.1 (fun hm => hn (List.mem_cons_of_mem _ hm))


/-- With a `NULL` mesh array `quit` releases no mesh storage. -/
theorem quit_no_mesh_release (st : state) (h : st.meshes = none) :
    Release.meshes ∉ quit st ∧ ∀ i, Release.vertices i ∉ quit st := by
  unfold quit
  rw [h]
  constructor
  · simp only [List.nil_append, List.mem_append, List.mem_singleton, not_or]
    split_ifs <;> simp
  · intro i
    simp only [List.nil_append, List.mem_append, List.mem_singleton, not_or]
    split_ifs <;> simp

/-- C8: when the file cannot be opened, load_meshes returns 0 and leaves the
state as it was.  On the path of the program (any state parse_args returned
for that file name) the mesh store is still empty, init ends the process with
a failure status, and the teardown releases no mesh storage. -/
theorem load_meshes_unopenable (env : Env) (fname : String) (st : state)
    (h : env.fopen fname = none) :
    load_meshes env (some fname) st = (0, st) ∧
    (∀ (argv : List String) (st0 : state),
      parse_args argv = Outcome.ret st0 → st0.meshfile = some fname →
        st0.meshes = none ∧ st0.num_meshes = 0 ∧
        ∃ rel, init env st0 = Outcome.exited EXIT_FAILURE rel ∧
          Release.meshes ∉ rel ∧ ∀ i, Release.vertices i ∉ rel) := by
  have hl : ∀ s : state, load_meshes env (some fname) s = (0, s) := by
    intro s
    unfold load_meshes
    simp [h]
  refine ⟨hl st, ?_⟩
  intro argv st0 hp hf
  have hst0 : st0.meshes = none ∧ st0.num_meshes = 0 := by
    unfold parse_args at hp
    split at hp
    · rename_i st1 hloop
      split_ifs at hp with hm
      · exact absurd hp (by simp [die])
      · simp only [Outcome.ret.injEq] at hp
        subst hp
        have := parse_loop_inv argv.tail.length argv.tail _ st1 (le_refl _) hloop
        exact ⟨this.2.2.2.2.1, this.2.2.2.2.2.1⟩
    · exact absurd hp (by simp)
  refine ⟨hst0.1, hst0.2, ?_⟩
  unfold init
  rw [hf, hl]
  split_ifs
  · exact ⟨_, rfl, quit_no_mesh_release _ hst0.1⟩
  · exact ⟨_, rfl, quit_no_mesh_release _ hst0.1⟩
  · exact ⟨_, rfl, quit_no_mesh_release _ hst0.1⟩
  · exact ⟨_, rfl, quit_no_mesh_release _ hst0.1⟩
  · rename_i hne
    exact absurd rfl hne

/-- Witness of C8: no file can be opened; the call is made on the state
parse_args returns for the arguments m.txt. -/
theorem load_meshes_unopenable_witness :
    env_no_file.fopen "m.txt" = none ∧
    load_meshes env_no_file (some "m.txt")
        { zero_state with win_width := 450, win_height := 450, meshfile := some "m.txt" }
      = (0, { zero_state with win_width := 450, win_height := 450, meshfile := some "m.txt" }) ∧
    init env_no_file
        { zero_state with win_width := 450, win_height := 450, meshfile := some "m.txt" }
      = Outcome.exited EXIT_FAILURE
          [Release.texture, Release.renderer, Release.window, Release.sdl] :=
  ⟨rfl,
    (load_meshes_unopenable env_no_file "m.txt"
      { zero_state with win_width := 450, win_height := 450, meshfile := some "m.txt" } rfl).1,
    rfl⟩

/-! ## C7: a mesh count of zero -/

/-- C7 fails on the code: for a mesh file that declares a mesh count of 0 (and a
malloc that returns a block for a request of 0 bytes, as glibc does),
parse_args and init succeed, the quit flag is clear, num_meshes is 0, and the
first call of update made by loop computes a remainder by zero. -/
theorem zero_mesh_file_reaches_update :
    ∃ st0 st1, parse_args ["mesh", "m.txt"] = Outcome.ret st0 ∧
      init env_zero_meshes st0 = Outcome.ret st1 ∧
      st1.num_meshes = 0 ∧ st1.quit = 0 ∧
      (∀ now now2 : Nat, update now now2 st1 = none) ∧
      (∀ (f : Frame) (fs : List Frame) (px : Int → Nat), loop (f :: fs) st1 px = none) := by
  refine ⟨_, _, rfl, rfl, rfl, rfl, fun _ _ => rfl, fun _ _ _ => rfl⟩

/-! ## C1: loading a valid mesh file -/

end Mesh
